import Mathlib

/-
Verification development for a small command-line contact manager
(single Python source file).  The data model is embedded shallowly:

* a Phone or Name field is represented by its stored string value
  (the Python Field classes hold exactly one attribute, value);
* a Record is a structure of name, phone list and optional birthday;
* an AddressBook is an insertion-ordered association list from name
  to Record, which is exactly the observable content of a Python dict
  (insertion order preserved, overwriting a key keeps its position);
* raising ValueError (the spec calls it FormatError) is modelled with
  Except String; mutating methods are state-passing functions.
-/

deriving instance DecidableEq for Except

namespace ContactBook

/-- Embeds the character-level classification of Python str.isdigit for the
character ranges exercised in this development.  Python classifies a character
as a digit exactly when it has the Unicode digit property; that property holds
for ASCII 0-9 and also for many non-ASCII characters, among them the
superscripts U+00B2, U+00B3, U+00B9, the Arabic-Indic digits U+0660-U+0669,
the extended Arabic-Indic digits U+06F0-U+06F9, the Devanagari digits
U+0966-U+096F and the fullwidth digits U+FF10-U+FF19, all of which are
digit-true in Python and are listed here. -/
def pyIsDigitChar (c : Char) : Bool :=
  (0x30 ≤ c.toNat && c.toNat ≤ 0x39) ||
  c.toNat == 0xB2 || c.toNat == 0xB3 || c.toNat == 0xB9 ||
  (0x660 ≤ c.toNat && c.toNat ≤ 0x669) ||
  (0x6F0 ≤ c.toNat && c.toNat ≤ 0x6F9) ||
  (0x966 ≤ c.toNat && c.toNat ≤ 0x96F) ||
  (0xFF10 ≤ c.toNat && c.toNat ≤ 0xFF19)

/-- Embeds Python str.isdigit on a whole string: true when the string is
nonempty and every character is a digit. -/
def pyIsDigit (s : String) : Bool :=
  s.length != 0 && s.toList.all pyIsDigitChar

/-- An ASCII decimal digit; used on the specification side, where the claims
speak about ASCII digits. -/
def isAsciiDigit (c : Char) : Bool :=
  0x30 ≤ c.toNat && c.toNat ≤ 0x39

/-- Embeds Phone.__init__: raises ValueError unless the value is a digit
string (str.isdigit) of length exactly 10; on success the stored value is the
input string itself. -/
def phone_init (s : String) : Except String String :=
  if pyIsDigit s && s.length == 10 then Except.ok s
  else Except.error "Invalid phone number format."

/-- Embeds the character class of a backslash-d atom in a Python str regex
(and the digit alphabet of int()): any Unicode decimal digit, category Nd.
The strptime format regex is compiled without the ASCII flag, so these atoms
are Unicode-aware.  As with the str.isdigit embedding above, the Nd ranges
listed are the ones exercised in this development (ASCII, Arabic-Indic,
extended Arabic-Indic, Devanagari, fullwidth), each of which Python's
backslash-d genuinely matches; the superscript digits are deliberately
absent, since they are not category Nd and are not matched. -/
def isPyDecDigit (c : Char) : Bool :=
  (0x30 ≤ c.toNat && c.toNat ≤ 0x39) ||
  (0x660 ≤ c.toNat && c.toNat ≤ 0x669) ||
  (0x6F0 ≤ c.toNat && c.toNat ≤ 0x6F9) ||
  (0x966 ≤ c.toNat && c.toNat ≤ 0x96F) ||
  (0xFF10 ≤ c.toNat && c.toNat ≤ 0xFF19)

/-- Decimal value of a Unicode decimal digit of the ranges above, as int()
assigns it; meaningful only on characters satisfying isPyDecDigit. -/
def pyDigitVal (c : Char) : Nat :=
  if c.toNat < 0x660 then c.toNat - 0x30
  else if c.toNat < 0x6F0 then c.toNat - 0x660
  else if c.toNat < 0x966 then c.toNat - 0x6F0
  else if c.toNat < 0xFF10 then c.toNat - 0x966
  else c.toNat - 0xFF10

/-- Embeds int() on a captured strptime group: decimal composition of the
digit values, most significant first (int accepts any Unicode decimal
digits, mixed freely with ASCII ones). -/
def pyIntVal (l : List Char) : Nat :=
  l.foldl (fun a c => a * 10 + pyDigitVal c) 0

/-- Numeric value of a list of ASCII digit characters, most significant
first; used on the specification side, where the claims speak about ASCII
digit fields. -/
def digitsVal (l : List Char) : Nat :=
  l.foldl (fun a c => a * 10 + (c.toNat - 0x30)) 0

/-- Embeds the day group of the strptime regex for the d directive, the
alternation 3[01], [12] backslash-d, 0[1-9], [1-9], applied to the complete
field between the separators: the bracket classes are literal ASCII, while
the backslash-d second digit of the [12] alternative may be any Unicode
decimal digit. -/
def dayFieldMatch : List Char → Bool
  | [c] => 0x31 ≤ c.toNat && c.toNat ≤ 0x39
  | [c1, c2] =>
    (c1.toNat == 0x33 && (c2.toNat == 0x30 || c2.toNat == 0x31)) ||
    ((c1.toNat == 0x31 || c1.toNat == 0x32) && isPyDecDigit c2) ||
    (c1.toNat == 0x30 && 0x31 ≤ c2.toNat && c2.toNat ≤ 0x39)
  | _ => false

/-- Embeds the month group of the strptime regex for the m directive, the
alternation 1[0-2], 0[1-9], [1-9]; every class here is literal ASCII, so the
month field admits no Unicode digits. -/
def monthFieldMatch : List Char → Bool
  | [c] => 0x31 ≤ c.toNat && c.toNat ≤ 0x39
  | [c1, c2] =>
    (c1.toNat == 0x31 && (c2.toNat == 0x30 || c2.toNat == 0x31 || c2.toNat == 0x32)) ||
    (c1.toNat == 0x30 && 0x31 ≤ c2.toNat && c2.toNat ≤ 0x39)
  | _ => false

/-- Embeds the Gregorian leap-year rule used by Python datetime. -/
def isLeapYear (y : Nat) : Bool :=
  y % 4 == 0 && (y % 100 != 0 || y % 400 == 0)

/-- Number of days of month m (1-12) of year y, as in Python datetime. -/
def daysInMonth (y m : Nat) : Nat :=
  if m == 2 then (if isLeapYear y then 29 else 28)
  else if m == 4 || m == 6 || m == 9 || m == 11 then 30
  else 31

/-- Days in year y before the first day of month m. -/
def daysBeforeMonth (y m : Nat) : Nat :=
  (List.range (m - 1)).foldl (fun a i => a + daysInMonth y (i + 1)) 0

/-- Embeds date.toordinal of the proleptic Gregorian calendar:
1 January of year 1 has ordinal 1 (CPython _ymd2ord). -/
def toOrdinal (y m d : Nat) : Nat :=
  365 * (y - 1) + (y - 1) / 4 - (y - 1) / 100 + (y - 1) / 400
    + daysBeforeMonth y m + d

/-- Embeds date.weekday of CPython: Monday is 0 and Sunday is 6, computed
from the ordinal (ordinal 1, i.e. 1.1.0001, is a Monday). -/
def pyWeekday (ord : Nat) : Nat :=
  (ord + 6) % 7

/-- Splits a character list at every dot character, the literal separator of
the d.m.Y format; a string made of three dot-free fields joined by dots
splits into exactly those three fields. -/
def splitDots : List Char → List (List Char)
  | [] => [[]]
  | c :: cs =>
    if c = '.' then [] :: splitDots cs
    else
      match splitDots cs with
      | [] => [[c]]
      | g :: gs => (c :: g) :: gs

/-- Embeds datetime.strptime(s, d.m.Y with percent directives) followed by
the datetime constructor, returning the day, month and year on success.
Stage one is the regex strptime compiles for that format (without the ASCII
flag, so backslash-d atoms match Unicode decimal digits): the day field
must match the day alternation, the month field the month alternation, the
year field must be exactly four decimal digits (ASCII or not), the
separators are literal dots, and the whole string must be consumed; the
captured groups are converted with int(), which reads Unicode decimal
digits.  Stage two is the datetime constructor, which requires the year to
be at least MINYEAR = 1 and the day to exist in that month of that year.
Zero padding of day and month is not required by the regex. -/
def parseDMY (s : String) : Option (Nat × Nat × Nat) :=
  match splitDots s.toList with
  | [ds, ms, ys] =>
    if dayFieldMatch ds && monthFieldMatch ms
        && ys.length == 4 && ys.all isPyDecDigit then
      let d := pyIntVal ds
      let m := pyIntVal ms
      let y := pyIntVal ys
      if 1 ≤ y && d ≤ daysInMonth y m then some (d, m, y) else none
    else none
  | _ => none

/-- Embeds Birthday.__init__: raises ValueError when strptime (or the
datetime constructor it calls) does; on success the stored value is the raw
input string itself. -/
def birthday_init (s : String) : Except String String :=
  if (parseDMY s).isSome then Except.ok s
  else Except.error "Invalid birthday format. Use DD.MM.YYYY."

/-- Embeds Field.__str__: renders the stored value, which for every field of
this program is the raw string it was constructed from. -/
def fieldStr (v : String) : String := v

/-- A contact record: Name value, Phone values in insertion order, and the
optional Birthday value. -/
structure Record where
  name : String
  phones : List String
  birthday : Option String
  deriving DecidableEq, Repr

/-- Embeds Record.add_phone as a state-passing function: Phone(phone) is
evaluated first, so on a ValueError the append never happens and the record
is returned unchanged next to the error; on success the validated value is
appended. -/
def add_phone (r : Record) (raw : String) : Option String × Record :=
  match phone_init raw with
  | Except.error e => (some e, r)
  | Except.ok v => (none, { r with phones := r.phones ++ [v] })

/-- Replaces the first occurrence of old in the list with new; the loop of
Record.edit_phone assigns p.value = new_phone at the first match and
returns. -/
def replaceFirst : List String → String → String → List String
  | [], _, _ => []
  | x :: xs, o, n => if x == o then n :: xs else x :: replaceFirst xs o n

/-- Embeds Record.edit_phone: scans the phone list for the first entry equal
to old_phone and overwrites its value with new_phone, returning without
touching the rest; no validation of new_phone is performed and no exception
can be raised. -/
def edit_phone (r : Record) (old_phone new_phone : String) : Record :=
  { r with phones := replaceFirst r.phones old_phone new_phone }

/-- An address book: the content of the UserDict data mapping, as an
insertion-ordered association list with pairwise distinct keys. -/
abbrev AddressBook : Type := List (String × Record)

/-- Embeds AddressBook.add_record: dict assignment keyed by the record name.
If the key is present its value is overwritten in place (the position is
kept, as Python dicts do); otherwise the pair is appended. -/
def add_record : AddressBook → Record → AddressBook
  | [], r => [(r.name, r)]
  | (k, v) :: rest, r =>
    if k == r.name then (k, r) :: rest else (k, v) :: add_record rest r

/-- Embeds AddressBook.find: dict.get, returning the record stored under
exactly this key, or none. -/
def find : AddressBook → String → Option Record
  | [], _ => none
  | (k, v) :: rest, name => if k == name then some v else find rest name

/-- Embeds AddressBook.delete: if the name is a key, the dict entry is
removed (keys are unique in a dict, so removing the key removes every pair
carrying it); otherwise nothing happens. -/
def delete (book : AddressBook) (name : String) : AddressBook :=
  if book.any (fun p => p.1 == name) then
    book.filter (fun p => !(p.1 == name))
  else book

/-- Embeds comparison of datetime values: a datetime is a date ordinal
paired with a time of day (an abstract count of sub-day units, 0 meaning
midnight), and less-or-equal is lexicographic, date first. -/
def dtLeB (a b : Nat × Nat) : Bool :=
  a.1 < b.1 || (a.1 == b.1 && a.2 ≤ b.2)

/-- Embeds the loop of AddressBook.get_birthdays_per_week over the dict
items, given the window bound ordinals and the time of day both bounds
carry (they inherit it from datetime.today()).  For each record in
iteration order: a record with no birthday contributes nothing; otherwise
the stored birthday string is re-parsed with strptime, whose ValueError
would propagate and abort the whole call (modelled by the error branch);
the parsed date is a datetime at midnight, and the formatted line is
emitted when it lies between the two bounds under datetime comparison.
The traversal mutates nothing, so every entry is passed through to the
resulting book state unchanged. -/
def gbpwLoop (ws we tod : Nat) :
    List (String × Record) → Except String (List String × List (String × Record))
  | [] => Except.ok ([], [])
  | (name, r) :: rest =>
    match r.birthday with
    | none =>
      match gbpwLoop ws we tod rest with
      | Except.error e => Except.error e
      | Except.ok (out, bk) => Except.ok (out, (name, r) :: bk)
    | some b =>
      match parseDMY b with
      | none => Except.error ("time data " ++ b ++ " does not match the format")
      | some (d, m, y) =>
        match gbpwLoop ws we tod rest with
        | Except.error e => Except.error e
        | Except.ok (out, bk) =>
          Except.ok
            ((if dtLeB (ws, tod) (toOrdinal y m d, 0)
                  && dtLeB (toOrdinal y m d, 0) (we, tod)
              then (name ++ ": " ++ b) :: out else out),
             (name, r) :: bk)

/-- Embeds AddressBook.get_birthdays_per_week as a state-passing function of
the book.  datetime.today() is given as the proleptic Gregorian ordinal of
its date together with its time of day.  The window bounds are computed
exactly as in the source: next week start = today + (6 - today.weekday())
+ 7 days, end = start + 6 days; adding whole days leaves the time of day
unchanged, so both bounds carry today's time of day, while the strptime
birthday values are midnight datetimes. -/
def get_birthdays_per_week (book : AddressBook) (todayOrd todayTod : Nat) :
    Except String (List String) × AddressBook :=
  let ws := todayOrd + ((6 - pyWeekday todayOrd) + 7)
  let we := ws + 6
  match gbpwLoop ws we todayTod book with
  | Except.ok (out, bk) => (Except.ok out, bk)
  | Except.error e => (Except.error e, book)

/-- Every birthday stored in the book parses under strptime; this is the
well-formedness every reachable book has, since birthdays are only stored
after Birthday validation. -/
def birthdays_parse (book : AddressBook) : Bool :=
  book.all fun p =>
    match p.2.birthday with
    | none => true
    | some b => (parseDMY b).isSome

/-- Stated from the claim: the contribution of one book entry to the result
of the upcoming-birthdays query with window bounds ws and we.  A record
whose birthday is set and parses as a full date literal (year included, not
re-anchored) to a date between the bounds inclusive yields the line name,
colon, space, birthday; any other record yields nothing. -/
def entry_line (ws we : Nat) (p : String × Record) : Option String :=
  match p.2.birthday with
  | none => none
  | some b =>
    match parseDMY b with
    | none => none
    | some (d, m, y) =>
      if ws ≤ toOrdinal y m d ∧ toOrdinal y m d ≤ we
      then some (p.1 ++ ": " ++ b) else none

/-- Stated from the claim: the upcoming-birthdays result as a filterMap over
the book in map-iteration (insertion) order, with the window computed as
daysUntilNextMonday = (6 - weekday(referenceDate)) + 7 under the numbering
Monday = 0 to Sunday = 6, window start = referenceDate + daysUntilNextMonday
days and window end = window start + 6 days, and membership tested on dates
with both bounds inclusive. -/
def upcoming_spec (book : AddressBook) (refOrd : Nat) : List String :=
  let ws := refOrd + ((6 - pyWeekday refOrd) + 7)
  let we := ws + 6
  book.filterMap (entry_line ws we)

/-- Stated from the amended claim: the contribution of one book entry when
the call is made at the given time of day.  The parsed birthday is included
when its date is strictly after the window start date, or equal to it on a
call made exactly at midnight, and at most the window end date. -/
def entry_line_at (ws we tod : Nat) (p : String × Record) : Option String :=
  match p.2.birthday with
  | none => none
  | some b =>
    match parseDMY b with
    | none => none
    | some (d, m, y) =>
      if (ws < toOrdinal y m d ∨ (ws = toOrdinal y m d ∧ tod = 0))
          ∧ toOrdinal y m d ≤ we
      then some (p.1 ++ ": " ++ b) else none

/-- Stated from the amended claim: the upcoming-birthdays result for a call
at the given time of day, as a filterMap over the book in map-iteration
(insertion) order with the same window ordinals as the claim. -/
def upcoming_spec_at (book : AddressBook) (refOrd tod : Nat) : List String :=
  let ws := refOrd + ((6 - pyWeekday refOrd) + 7)
  let we := ws + 6
  book.filterMap (entry_line_at ws we tod)

/-- Stated from the claims: the strict birthday pattern together with
calendar validity.  Splitting on the literal dot separators must yield
exactly a two-digit zero-padded day, a two-digit zero-padded month and a
four-digit year, all ASCII digits (equivalently, the string matches the
positional pattern DD.MM.YYYY, since digit fields contain no dots), and the
triple must denote an existing calendar date of the proleptic Gregorian
calendar with year at least 1. -/
def strictValidDate (s : String) : Bool :=
  match splitDots s.toList with
  | [ds, ms, ys] =>
    ds.length == 2 && ms.length == 2 && ys.length == 4
      && ds.all isAsciiDigit && ms.all isAsciiDigit && ys.all isAsciiDigit
      && (let d := digitsVal ds
          let m := digitsVal ms
          let y := digitsVal ys
          1 ≤ d && 1 ≤ m && m ≤ 12 && 1 ≤ y && d ≤ daysInMonth y m)
  | _ => false

/-- Stated from the amended claim: the day field the code actually accepts,
in value terms.  One decimal digit, which must be ASCII, with value 1 to 9;
or two decimal digits with value 1 to 31, whose first digit is ASCII and
whose second digit may be a non-ASCII Unicode decimal digit only when the
first digit is 1 or 2. -/
def dayFlex : List Char → Bool
  | [c] => isAsciiDigit c && 1 ≤ pyDigitVal c
  | [c1, c2] =>
    isAsciiDigit c1 && isPyDecDigit c2
      && (isAsciiDigit c2 || c1.toNat == 0x31 || c1.toNat == 0x32)
      && 1 ≤ 10 * pyDigitVal c1 + pyDigitVal c2
      && 10 * pyDigitVal c1 + pyDigitVal c2 ≤ 31
  | _ => false

/-- Stated from the amended claim: the month field the code actually
accepts, in value terms.  One or two ASCII digits (no Unicode digits at
all) with value 1 to 12. -/
def monthFlex : List Char → Bool
  | [c] => isAsciiDigit c && 1 ≤ pyDigitVal c
  | [c1, c2] =>
    isAsciiDigit c1 && isAsciiDigit c2
      && 1 ≤ 10 * pyDigitVal c1 + pyDigitVal c2
      && 10 * pyDigitVal c1 + pyDigitVal c2 ≤ 12
  | _ => false

/-- Stated from the amended claim: the pattern the code actually accepts.
Splitting on the literal dots must yield a day and a month field as above
(zero padding optional) and a year of exactly four decimal digits, ASCII or
not, with year at least 1 and day at most the number of days of that month
in that year. -/
def flexValidDate (s : String) : Bool :=
  match splitDots s.toList with
  | [ds, ms, ys] =>
    dayFlex ds && monthFlex ms && ys.length == 4 && ys.all isPyDecDigit
      && 1 ≤ pyIntVal ys
      && pyIntVal ds ≤ daysInMonth (pyIntVal ys) (pyIntVal ms)
  | _ => false

/-- A string of ten Arabic-Indic zero digits U+0660; each of its characters
is digit-true for Python str.isdigit but is not an ASCII decimal digit. -/
def arabTen : String :=
  String.mk (List.replicate 10 (Char.ofNat 0x660))

/-- A concrete record used to instantiate universally quantified theorems. -/
def recA : Record := { name := "Alice", phones := ["1234567890"], birthday := none }

/-- A second concrete record with the same name as recA. -/
def recB : Record :=
  { name := "Alice", phones := ["0987654321"], birthday := some "15.03.1990" }

/-- A concrete record holding one valid phone. -/
def recBob : Record := { name := "Bob", phones := ["1234567890"], birthday := none }

/-- A concrete record with two phones. -/
def recTwo : Record :=
  { name := "Carol", phones := ["1111111111", "2222222222"], birthday := none }

/-- A concrete record whose birthday 11.03.1990 (ordinal 726537) falls on
the window start date of reference ordinal 726530. -/
def recWin : Record :=
  { name := "Alice", phones := [], birthday := some "11.03.1990" }

theorem daysInMonth_le (y m : Nat) : daysInMonth y m ≤ 31 := by
  unfold daysInMonth
  split
  · split <;> omega
  · split <;> omega

theorem replaceFirst_of_not_mem (o n : String) :
    ∀ l : List String, o ∉ l → replaceFirst l o n = l := by
  intro l
  induction l with
  | nil => intro _; rfl
  | cons x xs ih =>
    intro h
    simp only [List.mem_cons, not_or] at h
    have hx : (x == o) = false := beq_eq_false_iff_ne.mpr fun e => h.1 e.symm
    simp [replaceFirst, hx, ih h.2]

theorem replaceFirst_append (o n : String) :
    ∀ l1 l2, o ∉ l1 → replaceFirst (l1 ++ o :: l2) o n = l1 ++ n :: l2 := by
  intro l1
  induction l1 with
  | nil => intro l2 _; simp [replaceFirst]
  | cons x xs ih =>
    intro l2 h
    simp only [List.mem_cons, not_or] at h
    have hx : (x == o) = false := beq_eq_false_iff_ne.mpr fun e => h.1 e.symm
    simp [replaceFirst, hx, ih l2 h.2]

theorem mem_replaceFirst (o n : String) :
    ∀ l, o ∈ l → n ∈ replaceFirst l o n := by
  intro l
  induction l with
  | nil => intro h; cases h
  | cons x xs ih =>
    intro h
    by_cases hx : x = o
    · simp [replaceFirst, hx]
    · have ho : o ∈ xs := by
        rcases List.mem_cons.mp h with h1 | h1
        · exact absurd h1.symm hx
        · exact h1
      have hxb : (x == o) = false := beq_eq_false_iff_ne.mpr hx
      simp only [replaceFirst, hxb, Bool.false_eq_true, if_false]
      exact List.mem_cons_of_mem x (ih ho)

theorem find_add_record_self (book : AddressBook) (r : Record) :
    find (add_record book r) r.name = some r := by
  induction book with
  | nil => simp [add_record, find]
  | cons p rest ih =>
    obtain ⟨k, v⟩ := p
    by_cases h : k = r.name
    · simp [add_record, find, h]
    · simp [add_record, find, h, ih]

theorem add_record_overwrite (book : AddressBook) (r1 r2 : Record)
    (h : r1.name = r2.name) :
    add_record (add_record book r1) r2 = add_record book r2 := by
  induction book with
  | nil => simp [add_record, h]
  | cons p rest ih =>
    obtain ⟨k, v⟩ := p
    by_cases hk : k = r1.name
    · simp [add_record, hk, h]
    · have hk2 : ¬ k = r2.name := fun e => hk (e.trans h.symm)
      simp [add_record, hk, hk2, ih]

theorem find_any_false (book : AddressBook) (name : String)
    (h : book.any (fun p => p.1 == name) = false) : find book name = none := by
  induction book with
  | nil => rfl
  | cons p rest ih =>
    obtain ⟨k, v⟩ := p
    simp only [List.any_cons, Bool.or_eq_false_iff] at h
    simp [find, h.1, ih h.2]

theorem find_filter_eq_none (book : AddressBook) (name : String) :
    find (book.filter fun p => !(p.1 == name)) name = none := by
  induction book with
  | nil => rfl
  | cons p rest ih =>
    obtain ⟨k, v⟩ := p
    by_cases hk : k = name
    · simp [List.filter_cons, hk, ih]
    · have hkb : (k == name) = false := beq_eq_false_iff_ne.mpr hk
      simp [List.filter_cons, hkb, find, ih]

/-- C2 counterexample: the claim says edit_phone validates the new value and
fails with FormatError on a non-10-digit string, leaving the list unchanged.
On the code, with the old value present, editing to the invalid string abc
raises nothing and stores abc in the phone list, even though Phone
validation rejects abc. -/
theorem c2_edit_phone_no_validation_cex :
    phone_init "abc" = Except.error "Invalid phone number format." ∧
    edit_phone recBob "1234567890" "abc" =
      { name := "Bob", phones := ["abc"], birthday := none } := by
  constructor <;> rfl

/-- C2 amended: edit_phone performs no validation of the new value and
cannot fail (it is a total state transformer); even when the new value is
rejected by Phone validation, an occurrence of the old value is simply
overwritten with the invalid new value, which then appears in the phone
list. -/
theorem c2_edit_phone_amended (r : Record) (o n : String)
    (_hn : phone_init n = Except.error "Invalid phone number format.")
    (ho : o ∈ r.phones) :
    n ∈ (edit_phone r o n).phones :=
  mem_replaceFirst o n r.phones ho

/-- Witness for the amended C2 at a concrete record and an invalid new
value. -/
theorem c2_edit_phone_amended_witness :
    "abc" ∈ (edit_phone recBob "1234567890" "abc").phones :=
  c2_edit_phone_amended recBob "1234567890" "abc" (by rfl) (by decide)

/-- C5: after add_record, find with the record's name returns that record;
adding two records with the same name keeps exactly the second one (the
second insertion overwrites, it does not merge), and add_record is total, so
no error is raised on overwrite. -/
theorem c5_add_record_find_overwrite (book : AddressBook) (r1 r2 : Record) :
    find (add_record book r1) r1.name = some r1 ∧
    (r1.name = r2.name →
      find (add_record (add_record book r1) r2) r1.name = some r2 ∧
      add_record (add_record book r1) r2 = add_record book r2) := by
  refine ⟨find_add_record_self book r1, fun h => ⟨?_, add_record_overwrite book r1 r2 h⟩⟩
  rw [add_record_overwrite book r1 r2 h, h]
  exact find_add_record_self book r2

/-- Witness for C5 at two concrete records sharing the name Alice. -/
theorem c5_add_record_find_overwrite_witness :
    find (add_record (add_record ([] : AddressBook) recA) recB) recA.name = some recB :=
  ((c5_add_record_find_overwrite [] recA recB).2 (by rfl)).1

/-- C6: when the old value occurs in the phone list, edit_phone rewrites
exactly the first occurrence, keeping the prefix and suffix (hence the order
and every other entry) as well as the name and birthday; when the old value
does not occur, the record is returned entirely unchanged. -/
theorem c6_edit_phone_replace_first (r : Record) (o n : String) :
    (∀ l1 l2, o ∉ l1 → r.phones = l1 ++ o :: l2 →
      edit_phone r o n =
        { name := r.name, phones := l1 ++ n :: l2, birthday := r.birthday }) ∧
    (o ∉ r.phones → edit_phone r o n = r) := by
  constructor
  · intro l1 l2 h1 h2
    simp [edit_phone, h2, replaceFirst_append o n l1 l2 h1]
  · intro h
    simp [edit_phone, replaceFirst_of_not_mem o n r.phones h]

/-- Witness for C6: a present old value is replaced in place, an absent old
value leaves the record unchanged. -/
theorem c6_edit_phone_replace_first_witness :
    edit_phone recTwo "2222222222" "3333333333" =
      { name := "Carol", phones := ["1111111111", "3333333333"], birthday := none } ∧
    edit_phone recTwo "9999999999" "3333333333" = recTwo := by
  constructor
  · exact (c6_edit_phone_replace_first recTwo "2222222222" "3333333333").1
      ["1111111111"] [] (by decide) (by rfl)
  · exact (c6_edit_phone_replace_first recTwo "9999999999" "3333333333").2 (by decide)

/-- C7: find is an exact lookup returning an entry stored under literally
that name (string equality is case sensitive) or none, never an exception;
deleting an absent name is a no-op; and find after delete of the same name
returns none. -/
theorem c7_find_delete_total (book : AddressBook) (name : String) :
    (∀ r : Record, find book name = some r → (name, r) ∈ book) ∧
    find (delete book name) name = none ∧
    ((∀ p ∈ book, p.1 ≠ name) → delete book name = book) := by
  refine ⟨?_, ?_, ?_⟩
  · intro r
    induction book with
    | nil => intro h; cases h
    | cons p rest ih =>
      obtain ⟨k, v⟩ := p
      by_cases hk : k = name
      · intro h
        simp only [find, hk, beq_self_eq_true, if_true, Option.some.injEq] at h
        subst hk
        subst h
        exact List.mem_cons_self _ _
      · intro h
        have hkb : (k == name) = false := beq_eq_false_iff_ne.mpr hk
        simp only [find, hkb, Bool.false_eq_true, if_false] at h
        exact List.mem_cons_of_mem _ (ih h)
  · unfold delete
    by_cases hb : book.any (fun p => p.1 == name) = true
    · rw [if_pos hb]
      exact find_filter_eq_none book name
    · rw [if_neg hb]
      exact find_any_false book name (Bool.eq_false_iff.mpr hb)
  · intro h
    have hb : book.any (fun p => p.1 == name) = false := by
      rw [List.any_eq_false]
      intro p hp
      simpa using h p hp
    simp [delete, hb]

/-- Witness for C7 at a concrete one-record book and an absent name. -/
theorem c7_find_delete_total_witness :
    ((("Alice", recA) ∈ ([("Alice", recA)] : AddressBook)) ∧
      delete ([("Alice", recA)] : AddressBook) "Bob" = [("Alice", recA)]) ∧
    find (delete ([("Alice", recA)] : AddressBook) "Alice") "Alice" = none := by
  refine ⟨⟨?_, ?_⟩, (c7_find_delete_total [("Alice", recA)] "Alice").2.1⟩
  · exact (c7_find_delete_total [("Alice", recA)] "Alice").1 recA (by rfl)
  · exact (c7_find_delete_total [("Alice", recA)] "Bob").2.2 (by decide)

/-- C8: when the raw string fails Phone validation (it is not a digit string
of length 10), add_phone reports the ValueError message and returns the
record exactly as it was: Phone(phone) is evaluated before the append, so
nothing is ever partially applied. -/
theorem c8_add_phone_invalid_unchanged (r : Record) (raw : String)
    (h : (pyIsDigit raw && raw.length == 10) = false) :
    add_phone r raw = (some "Invalid phone number format.", r) := by
  simp [add_phone, phone_init, h]

/-- Witness for C8 at a concrete record and a three-character raw string. -/
theorem c8_add_phone_invalid_unchanged_witness :
    add_phone recA "123" = (some "Invalid phone number format.", recA) :=
  c8_add_phone_invalid_unchanged recA "123" (by decide)

theorem ascii_imp_py (c : Char) (h : isAsciiDigit c = true) :
    pyIsDigitChar c = true := by
  simp only [isAsciiDigit, Bool.and_eq_true, decide_eq_true_eq] at h
  simp only [pyIsDigitChar, Bool.or_eq_true, Bool.and_eq_true, decide_eq_true_eq,
    beq_iff_eq]
  omega

/-- C4 counterexample: the claim says Phone construction fails on any string
containing a non-ASCII-digit character.  The code accepts the ten-character
string of Arabic-Indic zeros, because Python str.isdigit classifies them as
digits, even though none of its characters is an ASCII decimal digit. -/
theorem c4_phone_ascii_cex :
    phone_init arabTen = Except.ok arabTen ∧
    arabTen.length = 10 ∧ arabTen.toList.all isAsciiDigit = false := by
  decide

/-- C4 amended: Phone construction from s succeeds (with stored and rendered
value exactly s) if and only if s has exactly 10 characters, each of which
Python str.isdigit counts as a digit; ASCII digits are such characters but
not the only ones, so every 10-character ASCII digit string is accepted
while acceptance is not limited to ASCII digit strings; every other input
fails with the ValueError message. -/
theorem c4_phone_digits_amended (s : String) :
    (phone_init s = Except.ok s ↔
      s.length = 10 ∧ ∀ c ∈ s.toList, pyIsDigitChar c = true) ∧
    ((s.length = 10 ∧ s.toList.all isAsciiDigit = true) →
      phone_init s = Except.ok s) := by
  have main : phone_init s = Except.ok s ↔
      s.length = 10 ∧ ∀ c ∈ s.toList, pyIsDigitChar c = true := by
    unfold phone_init
    by_cases hc : (pyIsDigit s && s.length == 10) = true
    · rw [if_pos hc]
      simp only [pyIsDigit, Bool.and_eq_true, bne_iff_ne, ne_eq, beq_iff_eq,
        List.all_eq_true] at hc
      exact ⟨fun _ => ⟨hc.2, hc.1.2⟩, fun _ => rfl⟩
    · rw [if_neg hc]
      constructor
      · intro h; cases h
      · intro ⟨h1, h2⟩
        exfalso
        apply hc
        have hne : s.length ≠ 0 := by omega
        simp only [pyIsDigit, Bool.and_eq_true, bne_iff_ne, ne_eq, beq_iff_eq,
          List.all_eq_true]
        exact ⟨⟨hne, h2⟩, h1⟩
  refine ⟨main, fun ⟨h1, h2⟩ => main.mpr ⟨h1, fun c hc =>
    ascii_imp_py c (List.all_eq_true.mp h2 c hc)⟩⟩

/-- Witness for the amended C4 at a concrete ASCII digit string. -/
theorem c4_phone_digits_amended_witness :
    phone_init "0123456789" = Except.ok "0123456789" :=
  (c4_phone_digits_amended "0123456789").2 (by decide)

theorem pyDigitVal_r1 (c : Char) : 0x30 ≤ c.toNat → c.toNat ≤ 0x39 →
    pyDigitVal c = c.toNat - 0x30 := by
  intro h1 h2
  unfold pyDigitVal
  split_ifs <;> omega

theorem pyDigitVal_r2 (c : Char) : 0x660 ≤ c.toNat → c.toNat ≤ 0x669 →
    pyDigitVal c = c.toNat - 0x660 := by
  intro h1 h2
  unfold pyDigitVal
  split_ifs <;> omega

theorem pyDigitVal_r3 (c : Char) : 0x6F0 ≤ c.toNat → c.toNat ≤ 0x6F9 →
    pyDigitVal c = c.toNat - 0x6F0 := by
  intro h1 h2
  unfold pyDigitVal
  split_ifs <;> omega

theorem pyDigitVal_r4 (c : Char) : 0x966 ≤ c.toNat → c.toNat ≤ 0x96F →
    pyDigitVal c = c.toNat - 0x966 := by
  intro h1 h2
  unfold pyDigitVal
  split_ifs <;> omega

theorem pyDigitVal_r5 (c : Char) : 0xFF10 ≤ c.toNat → c.toNat ≤ 0xFF19 →
    pyDigitVal c = c.toNat - 0xFF10 := by
  intro h1 h2
  unfold pyDigitVal
  split_ifs <;> omega

theorem ascii_imp_pydec (c : Char) (h : isAsciiDigit c = true) :
    isPyDecDigit c = true := by
  simp only [isAsciiDigit, Bool.and_eq_true, decide_eq_true_eq] at h
  simp only [isPyDecDigit, Bool.or_eq_true, Bool.and_eq_true, decide_eq_true_eq]
  omega

theorem digitsVal_pair (c1 c2 : Char) :
    digitsVal [c1, c2] = 10 * (c1.toNat - 0x30) + (c2.toNat - 0x30) := by
  simp only [digitsVal, List.foldl_cons, List.foldl_nil]
  omega

theorem pyIntVal_foldl_ascii (l : List Char) :
    ∀ a : Nat, l.all isAsciiDigit = true →
      l.foldl (fun a c => a * 10 + pyDigitVal c) a =
        l.foldl (fun a c => a * 10 + (c.toNat - 0x30)) a := by
  induction l with
  | nil => intro a _; rfl
  | cons c cs ih =>
    intro a h
    simp only [List.all_cons, Bool.and_eq_true] at h
    simp only [List.foldl_cons]
    have hc : pyDigitVal c = c.toNat - 0x30 := by
      have h1 := h.1
      simp only [isAsciiDigit, Bool.and_eq_true, decide_eq_true_eq] at h1
      exact pyDigitVal_r1 c h1.1 h1.2
    rw [hc]
    exact ih _ h.2

theorem pyIntVal_eq_digitsVal (l : List Char) (h : l.all isAsciiDigit = true) :
    pyIntVal l = digitsVal l :=
  pyIntVal_foldl_ascii l 0 h

theorem dayFieldMatch_eq_flex : ∀ ds, dayFieldMatch ds = dayFlex ds := by
  intro ds
  rcases ds with _ | ⟨c1, _ | ⟨c2, _ | ⟨c3, rest⟩⟩⟩
  · rfl
  · dsimp only [dayFieldMatch, dayFlex]
    have h1 := pyDigitVal_r1 c1
    rw [Bool.eq_iff_iff]
    simp only [isAsciiDigit, Bool.and_eq_true, decide_eq_true_eq]
    omega
  · dsimp only [dayFieldMatch, dayFlex]
    have h1 := pyDigitVal_r1 c1
    have h21 := pyDigitVal_r1 c2
    have h22 := pyDigitVal_r2 c2
    have h23 := pyDigitVal_r3 c2
    have h24 := pyDigitVal_r4 c2
    have h25 := pyDigitVal_r5 c2
    rw [Bool.eq_iff_iff]
    simp only [isPyDecDigit, isAsciiDigit, Bool.or_eq_true, Bool.and_eq_true,
      decide_eq_true_eq, beq_iff_eq]
    omega
  · rfl

theorem monthFieldMatch_eq_flex : ∀ ms, monthFieldMatch ms = monthFlex ms := by
  intro ms
  rcases ms with _ | ⟨c1, _ | ⟨c2, _ | ⟨c3, rest⟩⟩⟩
  · rfl
  · dsimp only [monthFieldMatch, monthFlex]
    have h1 := pyDigitVal_r1 c1
    rw [Bool.eq_iff_iff]
    simp only [isAsciiDigit, Bool.and_eq_true, decide_eq_true_eq]
    omega
  · dsimp only [monthFieldMatch, monthFlex]
    have h1 := pyDigitVal_r1 c1
    have h2 := pyDigitVal_r1 c2
    rw [Bool.eq_iff_iff]
    simp only [isAsciiDigit, Bool.or_eq_true, Bool.and_eq_true,
      decide_eq_true_eq, beq_iff_eq]
    omega
  · rfl

theorem parse_isSome_eq_flex (s : String) :
    (parseDMY s).isSome = flexValidDate s := by
  unfold parseDMY flexValidDate
  generalize splitDots s.toList = gs
  rcases gs with _ | ⟨ds, _ | ⟨ms, _ | ⟨ys, _ | ⟨z, zs⟩⟩⟩⟩
  · rfl
  · rfl
  · rfl
  · dsimp only
    rw [dayFieldMatch_eq_flex ds, monthFieldMatch_eq_flex ms, Bool.eq_iff_iff]
    constructor
    · intro h
      split at h
      · split at h
        · rename_i hA hB
          simp only [Bool.and_eq_true, decide_eq_true_eq, beq_iff_eq]
            at hA hB ⊢
          tauto
        · exact Bool.noConfusion h
      · exact Bool.noConfusion h
    · intro h
      simp only [Bool.and_eq_true, decide_eq_true_eq, beq_iff_eq] at h
      split
      · split
        · rfl
        · rename_i hc
          simp only [Bool.and_eq_true, decide_eq_true_eq, beq_iff_eq] at hc
          tauto
      · rename_i hc
        simp only [Bool.and_eq_true, decide_eq_true_eq, beq_iff_eq] at hc
        tauto
  · rfl

theorem birthday_isOk_eq_parse (s : String) :
    (birthday_init s).isOk = (parseDMY s).isSome := by
  unfold birthday_init
  by_cases h : (parseDMY s).isSome = true
  · simp [h, Except.isOk, Except.toBool]
  · simp [Bool.eq_false_iff.mpr h, Except.isOk, Except.toBool]

theorem strict_imp_flex (s : String) :
    strictValidDate s = true → flexValidDate s = true := by
  unfold strictValidDate flexValidDate
  generalize splitDots s.toList = gs
  rcases gs with _ | ⟨ds, _ | ⟨ms, _ | ⟨ys, _ | ⟨z, zs⟩⟩⟩⟩
  · intro h; exact absurd h (by simp)
  · intro h; exact absurd h (by simp)
  · intro h; exact absurd h (by simp)
  · dsimp only
    intro h
    simp only [Bool.and_eq_true, decide_eq_true_eq, beq_iff_eq,
      List.all_eq_true] at h
    have hld : ds.length = 2 := by tauto
    have hlm : ms.length = 2 := by tauto
    have hly : ys.length = 4 := by tauto
    have hda : ∀ c ∈ ds, isAsciiDigit c = true := by tauto
    have hma : ∀ c ∈ ms, isAsciiDigit c = true := by tauto
    have hya : ∀ c ∈ ys, isAsciiDigit c = true := by tauto
    have hd1 : 1 ≤ digitsVal ds := by tauto
    have hm1 : 1 ≤ digitsVal ms := by tauto
    have hm12 : digitsVal ms ≤ 12 := by tauto
    have hy1 : 1 ≤ digitsVal ys := by tauto
    have hdim : digitsVal ds ≤ daysInMonth (digitsVal ys) (digitsVal ms) := by
      tauto
    have hds : pyIntVal ds = digitsVal ds :=
      pyIntVal_eq_digitsVal ds (List.all_eq_true.mpr hda)
    have hms : pyIntVal ms = digitsVal ms :=
      pyIntVal_eq_digitsVal ms (List.all_eq_true.mpr hma)
    have hys : pyIntVal ys = digitsVal ys :=
      pyIntVal_eq_digitsVal ys (List.all_eq_true.mpr hya)
    have hdayf : dayFlex ds = true := by
      rcases ds with _ | ⟨c1, _ | ⟨c2, _ | ⟨c3, rest⟩⟩⟩
      · simp only [List.length_nil] at hld; omega
      · simp only [List.length_cons, List.length_nil] at hld; omega
      · have hn1 : 0x30 ≤ c1.toNat ∧ c1.toNat ≤ 0x39 := by
          simpa [isAsciiDigit] using hda c1 (by simp)
        have hn2 : 0x30 ≤ c2.toNat ∧ c2.toNat ≤ 0x39 := by
          simpa [isAsciiDigit] using hda c2 (by simp)
        have hv1 : pyDigitVal c1 = c1.toNat - 0x30 :=
          pyDigitVal_r1 c1 hn1.1 hn1.2
        have hv2 : pyDigitVal c2 = c2.toNat - 0x30 :=
          pyDigitVal_r1 c2 hn2.1 hn2.2
        have hdv := digitsVal_pair c1 c2
        have h31 : digitsVal [c1, c2] ≤ 31 := le_trans hdim (daysInMonth_le _ _)
        simp only [dayFlex, isAsciiDigit, isPyDecDigit, Bool.and_eq_true,
          Bool.or_eq_true, decide_eq_true_eq, beq_iff_eq]
        omega
      · simp only [List.length_cons, List.length_nil] at hld; omega
    have hmonf : monthFlex ms = true := by
      rcases ms with _ | ⟨c1, _ | ⟨c2, _ | ⟨c3, rest⟩⟩⟩
      · simp only [List.length_nil] at hlm; omega
      · simp only [List.length_cons, List.length_nil] at hlm; omega
      · have hn1 : 0x30 ≤ c1.toNat ∧ c1.toNat ≤ 0x39 := by
          simpa [isAsciiDigit] using hma c1 (by simp)
        have hn2 : 0x30 ≤ c2.toNat ∧ c2.toNat ≤ 0x39 := by
          simpa [isAsciiDigit] using hma c2 (by simp)
        have hv1 : pyDigitVal c1 = c1.toNat - 0x30 :=
          pyDigitVal_r1 c1 hn1.1 hn1.2
        have hv2 : pyDigitVal c2 = c2.toNat - 0x30 :=
          pyDigitVal_r1 c2 hn2.1 hn2.2
        have hdv := digitsVal_pair c1 c2
        simp only [monthFlex, isAsciiDigit, Bool.and_eq_true,
          decide_eq_true_eq]
        omega
      · simp only [List.length_cons, List.length_nil] at hlm; omega
    have hyd : ∀ c ∈ ys, isPyDecDigit c = true :=
      fun c hc => ascii_imp_pydec c (hya c hc)
    simp only [Bool.and_eq_true, decide_eq_true_eq, beq_iff_eq,
      List.all_eq_true, hdayf, hmonf, hds, hms, hys, true_and]
    tauto
  · intro h; exact absurd h (by simp)

/-- C3 counterexample: the claim says Birthday construction fails for every
string that does not match the exact zero-padded DD.MM.YYYY pattern; the
string 1.01.2000 does not match that pattern (its day field has one digit),
yet the code accepts it, because strptime's day directive also matches a
single digit. -/
theorem c3_birthday_pattern_cex :
    strictValidDate "1.01.2000" = false ∧
    birthday_init "1.01.2000" = Except.ok "1.01.2000" := by
  constructor <;> rfl

/-- C3 amended: Birthday construction succeeds exactly on strings that
split at literal dots into a day of one or two decimal digits with value 1
to 31 (the first digit ASCII; the second may be a non-ASCII Unicode decimal
digit only when the first is 1 or 2), a month of one or two ASCII digits
with value 1 to 12, and a year of exactly four decimal digits, ASCII or not
(zero padding of day and month optional), denoting an existing calendar
date with year at least 1.  In particular the non-padded 1.01.2000 is
accepted; so are 15.03.1990 written with an Arabic-Indic year and 1x.03.1990
with an Arabic-Indic five as second day digit, while an Arabic-Indic digit
in the month or as a lone day digit is rejected; non-existing dates
30.02.2024, 31.04.2023 and 29.02.2023 are rejected with FormatError, and
leap years are respected (29.02.2024 accepted). -/
theorem c3_birthday_flexible_amended :
    (∀ s : String, (birthday_init s).isOk = flexValidDate s) ∧
    birthday_init "29.02.2024" = Except.ok "29.02.2024" ∧
    birthday_init "1.01.2000" = Except.ok "1.01.2000" ∧
    birthday_init "15.03.١٩٩٠" = Except.ok "15.03.١٩٩٠" ∧
    birthday_init "1٥.03.1990" = Except.ok "1٥.03.1990" ∧
    birthday_init "15.0٣.1990" =
      Except.error "Invalid birthday format. Use DD.MM.YYYY." ∧
    birthday_init "٥.03.1990" =
      Except.error "Invalid birthday format. Use DD.MM.YYYY." ∧
    birthday_init "30.02.2024" =
      Except.error "Invalid birthday format. Use DD.MM.YYYY." ∧
    birthday_init "31.04.2023" =
      Except.error "Invalid birthday format. Use DD.MM.YYYY." ∧
    birthday_init "29.02.2023" =
      Except.error "Invalid birthday format. Use DD.MM.YYYY." := by
  refine ⟨fun s => (birthday_isOk_eq_parse s).trans (parse_isSome_eq_flex s),
    ?_, ?_, ?_, ?_, ?_, ?_, ?_, ?_, ?_⟩ <;> rfl

/-- C9: every string matching the strict zero-padded DD.MM.YYYY pattern and
denoting an existing calendar date is accepted by Birthday construction, and
since the Birthday stores the raw input string and rendering returns the
stored value, the constructed Birthday renders back to exactly the input
(round-trip identity). -/
theorem c9_birthday_roundtrip (s : String) (h : strictValidDate s = true) :
    birthday_init s = Except.ok s ∧ fieldStr s = s := by
  have hp : (parseDMY s).isSome = true := by
    rw [parse_isSome_eq_flex]
    exact strict_imp_flex s h
  exact ⟨by simp [birthday_init, hp], rfl⟩

/-- Witness for C9 at the leap-day date from the claim. -/
theorem c9_birthday_roundtrip_witness :
    strictValidDate "29.02.2024" = true ∧
    birthday_init "29.02.2024" = Except.ok "29.02.2024" :=
  ⟨by decide, (c9_birthday_roundtrip "29.02.2024" (by decide)).1⟩

theorem gbpwLoop_state (ws we tod : Nat) :
    ∀ l out bk, gbpwLoop ws we tod l = Except.ok (out, bk) → bk = l := by
  intro l
  induction l with
  | nil =>
    intro out bk h
    simp only [gbpwLoop, Except.ok.injEq, Prod.mk.injEq] at h
    exact h.2.symm
  | cons p rest ih =>
    intro out bk h
    obtain ⟨name, r⟩ := p
    rcases hb : r.birthday with _ | b
    · simp only [gbpwLoop, hb] at h
      rcases hr : gbpwLoop ws we tod rest with e | ⟨out2, bk2⟩
      · rw [hr] at h; cases h
      · rw [hr] at h
        simp only [Except.ok.injEq, Prod.mk.injEq] at h
        rw [← h.2, ih out2 bk2 hr]
    · simp only [gbpwLoop, hb] at h
      rcases hp : parseDMY b with _ | ⟨d, m, y⟩
      · rw [hp] at h; cases h
      · rw [hp] at h
        rcases hr : gbpwLoop ws we tod rest with e | ⟨out2, bk2⟩
        · rw [hr] at h; cases h
        · rw [hr] at h
          simp only [Except.ok.injEq, Prod.mk.injEq] at h
          rw [← h.2, ih out2 bk2 hr]

theorem gbpwLoop_parse_ok (ws we tod : Nat) :
    ∀ l, birthdays_parse l = true →
      gbpwLoop ws we tod l =
        Except.ok (l.filterMap (entry_line_at ws we tod), l) := by
  intro l
  induction l with
  | nil => intro _; rfl
  | cons p rest ih =>
    intro h
    obtain ⟨name, r⟩ := p
    simp only [birthdays_parse, List.all_cons, Bool.and_eq_true] at h
    have hrest := ih h.2
    rcases hb : r.birthday with _ | b
    · simp only [gbpwLoop, hb, hrest, List.filterMap_cons]
      have he : entry_line_at ws we tod (name, r) = none := by
        simp [entry_line_at, hb]
      rw [he]
    · have hp : (parseDMY b).isSome = true := by
        have h1 := h.1
        rw [hb] at h1
        exact h1
      rcases hps : parseDMY b with _ | ⟨d, m, y⟩
      · rw [hps] at hp; cases hp
      · simp only [gbpwLoop, hb, hps, hrest, List.filterMap_cons]
        have he : entry_line_at ws we tod (name, r) =
            (if (ws < toOrdinal y m d ∨ (ws = toOrdinal y m d ∧ tod = 0))
                ∧ toOrdinal y m d ≤ we
             then some (name ++ ": " ++ b) else none) := by
          simp [entry_line_at, hb, hps]
        rw [he]
        by_cases hw : (ws < toOrdinal y m d ∨ (ws = toOrdinal y m d ∧ tod = 0))
            ∧ toOrdinal y m d ≤ we
        · have hB : (dtLeB (ws, tod) (toOrdinal y m d, 0)
              && dtLeB (toOrdinal y m d, 0) (we, tod)) = true := by
            simp only [dtLeB, Bool.and_eq_true, Bool.or_eq_true,
              decide_eq_true_eq, beq_iff_eq]
            omega
          simp [hB, hw]
        · have hB : (dtLeB (ws, tod) (toOrdinal y m d, 0)
              && dtLeB (toOrdinal y m d, 0) (we, tod)) = false := by
            rw [Bool.eq_false_iff]
            simp only [ne_eq, dtLeB, Bool.and_eq_true, Bool.or_eq_true,
              decide_eq_true_eq, beq_iff_eq]
            omega
          simp [hB, hw]

theorem entry_line_at_zero (ws we : Nat) (p : String × Record) :
    entry_line_at ws we 0 p = entry_line ws we p := by
  unfold entry_line_at entry_line
  rcases hb : p.2.birthday with _ | b
  · rfl
  · dsimp only
    rcases hps : parseDMY b with _ | ⟨d, m, y⟩
    · rfl
    · dsimp only
      exact if_congr (by omega) rfl rfl

theorem upcoming_spec_at_zero (book : AddressBook) (refOrd : Nat) :
    upcoming_spec_at book refOrd 0 = upcoming_spec book refOrd := by
  simp only [upcoming_spec_at, upcoming_spec]
  congr 1
  funext p
  exact entry_line_at_zero _ _ p

/-- C1 counterexample: the claim says the query includes exactly the
birthdays whose full date literal lies in the inclusive window
[windowStart, windowEnd].  In the source both window bounds inherit the
time of day of datetime.today() while the strptime birthday values are
midnight datetimes, so on any call made after midnight a birthday falling
exactly on the window start date is excluded.  Concretely: at reference
ordinal 726530 the window start ordinal is 726537, the date 11.03.1990;
the book stores exactly that birthday, the claim's inclusive window
contains it, yet a call one time unit past midnight returns the empty
list. -/
theorem c1_window_start_excluded_cex :
    birthdays_parse [("Alice", recWin)] = true ∧
    upcoming_spec [("Alice", recWin)] 726530 = ["Alice: 11.03.1990"] ∧
    (get_birthdays_per_week [("Alice", recWin)] 726530 1).1 =
      Except.ok [] := by
  refine ⟨by decide, by decide, by decide⟩

/-- C1 amended: for every reference datetime, given as its date ordinal and
its time of day, and every book whose stored birthdays parse, the query
succeeds and returns exactly the filterMap characterization: the window
ordinals are computed as daysUntilNextMonday = (6 - weekday(referenceDate))
+ 7 with Monday = 0 to Sunday = 6, window start = referenceDate +
daysUntilNextMonday days and window end = window start + 6 days, both
bounds carrying the reference time of day; a record is listed when its
birthday is set and, parsed as a full date literal with its own year (not
re-anchored), its date is strictly after the window start date, or equal to
it when the call is made exactly at midnight, and at most the window end
date; the lines appear in map-iteration (insertion) order and the result is
empty when no record matches.  The claim's inclusive window
[windowStart, windowEnd] is realized exactly by the midnight calls. -/
theorem c1_upcoming_birthdays_amended (book : AddressBook) (refOrd tod : Nat)
    (h : birthdays_parse book = true) :
    (get_birthdays_per_week book refOrd tod).1 =
      Except.ok (upcoming_spec_at book refOrd tod) ∧
    upcoming_spec_at book refOrd 0 = upcoming_spec book refOrd := by
  constructor
  · simp only [get_birthdays_per_week, upcoming_spec_at]
    rw [gbpwLoop_parse_ok _ _ _ book h]
  · exact upcoming_spec_at_zero book refOrd

/-- Witness for the amended C1 at the window-start book and a call one time
unit after midnight, where the query provably returns the characterization,
here the empty list. -/
theorem c1_upcoming_birthdays_amended_witness :
    birthdays_parse [("Alice", recWin)] = true ∧
    (get_birthdays_per_week [("Alice", recWin)] 726530 1).1 =
      Except.ok (upcoming_spec_at [("Alice", recWin)] 726530 1) ∧
    upcoming_spec_at [("Alice", recWin)] 726530 1 = [] :=
  ⟨by decide,
    (c1_upcoming_birthdays_amended [("Alice", recWin)] 726530 1 (by decide)).1,
    by decide⟩

/-- C10: the upcoming-birthdays query is read-only: the traversal performs
no assignment, so the book state handed back next to the result, including
every record's name, phone list and birthday, is exactly the input book,
whatever the call's date and time of day, whether the query succeeds or
aborts on an unparseable stored birthday. -/
theorem c10_birthdays_query_readonly (book : AddressBook)
    (todayOrd todayTod : Nat) :
    (get_birthdays_per_week book todayOrd todayTod).2 = book := by
  simp only [get_birthdays_per_week]
  rcases hr : gbpwLoop (todayOrd + ((6 - pyWeekday todayOrd) + 7))
      (todayOrd + ((6 - pyWeekday todayOrd) + 7) + 6) todayTod book
    with e | ⟨out, bk⟩
  · simp [hr]
  · simp only [hr]
    exact gbpwLoop_state _ _ _ book out bk hr

end ContactBook
